import Mathlib

set_option maxHeartbeats 1000000

/- Shallow embedding of `src/services/MenuBuilder.ts` (redoc).

   JavaScript objects used as string-keyed dictionaries are modelled as
   association lists in insertion order: assigning to an existing key updates
   the value in place (keeping its position), assigning to a fresh key appends,
   and `Object.keys` returns the keys in that order.  A JS object cannot hold
   two entries with the same key, so `Object.keys` followed by indexing is the
   same as iterating over the entry pairs. -/

abbrev Dict (α : Type) : Type := List (String × α)

def Dict.get {α : Type} : Dict α → String → Option α
  | [], _ => none
  | (k, v) :: rest, n => if k = n then some v else Dict.get rest n

def Dict.set {α : Type} : Dict α → String → α → Dict α
  | [], n, v => [(n, v)]
  | (k, w) :: rest, n, v =>
    if k = n then (k, v) :: rest else (k, w) :: Dict.set rest n v

def Dict.keys {α : Type} (d : Dict α) : List String := d.map Prod.fst

/- ---------------------------------------------------------------- types --

   `Referenced<OpenAPIParameter>` is a pure pass-through payload here (the
   path item's shared parameter list is copied onto each operation record and
   never inspected by MenuBuilder), so it is modelled as an opaque token. -/

abbrev OpenAPIParameter := String

/-- The fields of an `OpenAPIOperation` that MenuBuilder reads (`tags`), plus a
representative payload field (`operationId`) standing for the rest of the
operation object that is spread unchanged into the extended record. -/
structure OpenAPIOperation where
  tags : Option (List String)
  operationId : Option String
  deriving DecidableEq

/-- `ExtendedOpenAPIOperation = { pathName, httpVerb, pathParameters } &
OpenAPIOperation`; the TS spread `{ ...operationInfo, pathName, httpVerb,
pathParameters }` is modelled by embedding the original operation as `op`. -/
structure ExtendedOpenAPIOperation where
  op : OpenAPIOperation
  pathName : String
  httpVerb : String
  pathParameters : List OpenAPIParameter
  deriving DecidableEq

/-- `OpenAPITag`; `xTraitTag` is the truthiness of the `x-traitTag` vendor
extension on the tag object. -/
structure OpenAPITag where
  name : String
  description : Option String
  xTraitTag : Bool
  deriving DecidableEq

/-- `TagInfo = OpenAPITag & { operations, used? }`; the absent optional `used`
field is modelled as `false`. -/
structure TagInfo where
  name : String
  description : Option String
  xTraitTag : Bool
  operations : List ExtendedOpenAPIOperation
  used : Bool
  deriving DecidableEq

abbrev TagsInfoMap := Dict TagInfo

structure TagGroup where
  name : String
  tags : List String
  deriving DecidableEq

/-- A path item: the entries whose keys may be HTTP verb names (in the path
item's declaration order), and the shared `parameters` field. -/
structure OpenAPIPath where
  ops : List (String × OpenAPIOperation)
  parameters : Option (List OpenAPIParameter)
  deriving DecidableEq

structure OpenAPIInfo where
  description : Option String
  deriving DecidableEq

/-- The parts of the spec object MenuBuilder reads; `xTagGroups` models the
`x-tagGroups` vendor extension. -/
structure OpenAPISpec where
  info : OpenAPIInfo
  tags : Option (List OpenAPITag)
  paths : List (String × OpenAPIPath)
  xTagGroups : Option (List TagGroup)
  deriving DecidableEq

def GROUP_DEPTH : Nat := 0

/-- Modelled from the spec: `isOperationName` (imported from `../utils`) is not
among the sources; spec §4.1 says operation keys are matched case-sensitively
against the fixed enumerated set get, put, post, delete, options, head, patch,
trace. -/
def isOperationName (key : String) : Bool :=
  ["get", "put", "post", "delete", "options", "head", "patch", "trace"].contains key

/- -------------------------------------------- MenuBuilder.getTagsWithOperations -/

/-- Seeding step `tags[tag.name] = { ...tag, operations: [] }`. -/
def seedTagInfo (tag : OpenAPITag) : TagInfo :=
  { name := tag.name, description := tag.description, xTraitTag := tag.xTraitTag,
    operations := [], used := false }

/-- `for (const tag of spec.tags || []) { tags[tag.name] = {...tag, operations: []}; }` -/
def seedTags : List OpenAPITag → TagsInfoMap → TagsInfoMap
  | [], m => m
  | tag :: rest, m => seedTags rest (Dict.set m tag.name (seedTagInfo tag))

/-- `let operationTags = operationInfo.tags; if (!operationTags || !operationTags.length) operationTags = [''];` -/
def effectiveTags (op : OpenAPIOperation) : List String :=
  match op.tags with
  | none => [""]
  | some ts => if ts.isEmpty then [""] else ts

/-- The record pushed onto `tag.operations`:
`{ ...operationInfo, pathName, httpVerb: operationName, pathParameters: path.parameters || [] }`. -/
def extendOperation (op : OpenAPIOperation) (pathName httpVerb : String)
    (pathParameters : Option (List OpenAPIParameter)) : ExtendedOpenAPIOperation :=
  { op := op, pathName := pathName, httpVerb := httpVerb,
    pathParameters := pathParameters.getD [] }

/-- The lazily created entry `{ name: tagName, operations: [] }` (no
description, no `x-traitTag`, no `used`). -/
def freshTagInfo (tagName : String) : TagInfo :=
  { name := tagName, description := none, xTraitTag := false, operations := [],
    used := false }

/-- Body of `for (const tagName of operationTags) { ... }`: look up or lazily
create the tag entry, skip the push when the entry is trait-flagged, otherwise
append the extended operation. -/
def addOperationToTag (m : TagsInfoMap) (tagName : String)
    (ext : ExtendedOpenAPIOperation) : TagsInfoMap :=
  match Dict.get m tagName with
  | some tag =>
    if tag.xTraitTag then m
    else Dict.set m tagName { tag with operations := tag.operations ++ [ext] }
  | none =>
    -- a freshly created entry is inserted first and is never trait-flagged
    let tag := freshTagInfo tagName
    let m := Dict.set m tagName tag
    Dict.set m tagName { tag with operations := tag.operations ++ [ext] }

def addOperationTags : List String → ExtendedOpenAPIOperation → TagsInfoMap → TagsInfoMap
  | [], _, m => m
  | tagName :: rest, ext, m =>
    addOperationTags rest ext (addOperationToTag m tagName ext)

/-- `for (const operationName of operations) { ... }` where `operations =
Object.keys(path).filter(isOperationName)` (the caller passes the filtered
entry list). -/
def addPathOperations (pathName : String) (path : OpenAPIPath) :
    List (String × OpenAPIOperation) → TagsInfoMap → TagsInfoMap
  | [], m => m
  | (operationName, operationInfo) :: rest, m =>
    addPathOperations pathName path rest
      (addOperationTags (effectiveTags operationInfo)
        (extendOperation operationInfo pathName operationName path.parameters) m)

/-- `for (const pathName of Object.keys(paths)) { ... }`. -/
def addPaths : List (String × OpenAPIPath) → TagsInfoMap → TagsInfoMap
  | [], m => m
  | (pathName, path) :: rest, m =>
    addPaths rest
      (addPathOperations pathName path
        (path.ops.filter (fun e => isOperationName e.1)) m)

/-- `MenuBuilder.getTagsWithOperations`. -/
def getTagsWithOperations (spec : OpenAPISpec) : TagsInfoMap :=
  addPaths spec.paths (seedTags (spec.tags.getD []) [])

/- -------------------------------------------------------- content model --

   Modelled from the spec: `GroupModel` / `OperationModel` live in
   `services/models`, outside the sources; the spec (§3, §6) limits their role
   here to the structural contract: a kind tag (`section` / `group` / `tag`
   for groups), title/description, a depth, and ordered children.  Parent
   back-references are used only for id prefixing and are not modelled;
   depth/items are assigned write-once during construction, so nodes are built
   directly with their final values. -/

inductive GroupKind where
  | sect   -- 'section' (narrative heading)
  | group  -- 'group' (x-tagGroups entry)
  | tag    -- 'tag'
  deriving DecidableEq

inductive ContentItem where
  | group (kind : GroupKind) (name : String) (description : Option String)
      (depth : Nat) (items : List ContentItem)
  | operation (info : ExtendedOpenAPIOperation) (depth : Nat)

/-- A heading produced by the external `MarkdownRenderer.extractHeadings`
collaborator: title, description, and nested sub-headings (an absent `items`
field is modelled as `[]`; `if (heading.items)` treats `undefined` and `[]`
the same way, both producing no children). -/
inductive Heading where
  | mk (name : String) (description : Option String) (items : List Heading)

/-- `mapHeadingsDeep` of `MenuBuilder.addMarkdownItems`: one `section` group
per heading at the given depth, sub-headings one level deeper. -/
def mapHeadingsDeep : List Heading → Nat → List ContentItem
  | [], _ => []
  | Heading.mk name description hitems :: rest, depth =>
    ContentItem.group GroupKind.sect name description depth
        (mapHeadingsDeep hitems (depth + 1))
      :: mapHeadingsDeep rest depth

/-- `MenuBuilder.addMarkdownItems`, parameterised by the external heading
extractor; the grandparent argument is only a parent back-reference (id
prefixing) and the `setSecuritySchemePrefix` side effect does not change the
returned items, so neither is modelled. -/
def addMarkdownItems (extract : String → List Heading) (description : String) :
    List ContentItem :=
  mapHeadingsDeep (extract description) 1

/-- `MenuBuilder.getOperationsItems`: early return on an empty operations
array, otherwise one `OperationModel` per entry at the given depth. -/
def getOperationsItems (tag : TagInfo) (depth : Nat) : List ContentItem :=
  if tag.operations.length = 0 then []
  else tag.operations.map (fun operationInfo => ContentItem.operation operationInfo depth)

/- ------------------------------------------------ MenuBuilder.getTagsItems -/

/-- The `console.warn` text for a missing tag. -/
def warnMsg (tagName groupName : String) : String :=
  "Non-existing tag \"" ++ tagName ++ "\" is added to the group \"" ++ groupName ++ "\""

def withUsed (t : TagInfo) : TagInfo := { t with used := true }

/-- The first pass of `getTagsItems`:
`tagNames.map(tagName => { if (!tagsMap[tagName]) { console.warn(...); return null; }
tagsMap[tagName].used = true; return tagsMap[tagName]; })` — the captured
tag list, the mutated map, and the warnings, in iteration order. -/
def collectTags (groupName : String) :
    TagsInfoMap → List String → List (Option TagInfo) × TagsInfoMap × List String
  | m, [] => ([], m, [])
  | m, n :: rest =>
    match Dict.get m n with
    | none =>
      let r := collectTags groupName m rest
      (none :: r.1, r.2.1, warnMsg n groupName :: r.2.2)
    | some t =>
      let r := collectTags groupName (Dict.set m n (withUsed t)) rest
      (some (withUsed t) :: r.1, r.2.1, r.2.2)

/-- The items contributed by one (non-null) captured tag: the `tag` group at
depth `GROUP_DEPTH + 1`, except that an empty-named tag contributes its
markdown items and operations directly ("don't put empty tag into content"). -/
def tagChunk (extract : String → List Heading) (tag : TagInfo) : List ContentItem :=
  let depth := GROUP_DEPTH + 1
  let inner := addMarkdownItems extract (tag.description.getD "")
      ++ getOperationsItems tag (depth + 1)
  if tag.name = "" then inner
  else [ContentItem.group GroupKind.tag tag.name tag.description depth inner]

/-- The second pass of `getTagsItems`: `for (const tag of tags) { if (!tag) continue; ... }`. -/
def buildTagItems (extract : String → List Heading) :
    List (Option TagInfo) → List ContentItem
  | [] => []
  | none :: rest => buildTagItems extract rest
  | some tag :: rest => tagChunk extract tag ++ buildTagItems extract rest

/-- `MenuBuilder.getTagsItems` (the `parser`, `parent` and `options` arguments
are pass-through); returns the items together with the mutated tags map and
the `console.warn` messages, which the TS version produces by side effect. -/
def getTagsItems (extract : String → List Heading) (tagsMap : TagsInfoMap)
    (group : Option TagGroup) :
    List ContentItem × TagsInfoMap × List String :=
  let tagNames := match group with
    | none => Dict.keys tagsMap    -- all tags
    | some g => g.tags
  let groupName := match group with
    | none => ""                   -- `group!.name` is never read in this case
    | some g => g.name
  let r := collectTags groupName tagsMap tagNames
  (buildTagItems extract r.1, r.2.1, r.2.2)

/-- `MenuBuilder.getTagGroupsItems`: one `group`-kind Group of depth
`GROUP_DEPTH` per `x-tagGroups` entry, children from `getTagsItems`; the map
mutation and warnings thread through the groups in order. -/
def getTagGroupsItems (extract : String → List Heading) :
    List TagGroup → TagsInfoMap → List ContentItem × TagsInfoMap × List String
  | [], m => ([], m, [])
  | g :: rest, m =>
    let r := getTagsItems extract m (some g)
    let r' := getTagGroupsItems extract rest r.2.1
    (ContentItem.group GroupKind.group g.name none GROUP_DEPTH r.1 :: r'.1,
      r'.2.1, r.2.2 ++ r'.2.2)

/-- `MenuBuilder.buildStructure`, also exposing the final tags map and the
warnings (both internal effects in the TS version). -/
def buildStructureFull (extract : String → List Heading) (spec : OpenAPISpec) :
    List ContentItem × TagsInfoMap × List String :=
  let tagsMap := getTagsWithOperations spec
  let mdItems := addMarkdownItems extract (spec.info.description.getD "")
  let r := match spec.xTagGroups with
    | some gs =>
      if 0 < gs.length then getTagGroupsItems extract gs tagsMap
      else getTagsItems extract tagsMap none
    | none => getTagsItems extract tagsMap none
  (mdItems ++ r.1, r.2.1, r.2.2)

/-- `MenuBuilder.buildStructure` proper: the returned items. -/
def buildStructure (extract : String → List Heading) (spec : OpenAPISpec) :
    List ContentItem :=
  (buildStructureFull extract spec).1

/- ------------------------------------------------- derived closed forms --

   The following definitions are not part of the source; they are closed
   forms of the folds above, established by the lemmas that follow, and the
   vocabulary in which the claims are stated. -/

/-- The tag section of `buildStructure` (everything after the markdown items):
`x-tagGroups` items when supplied and non-empty, otherwise the items for all
tags. -/
def tagSection (extract : String → List Heading) (spec : OpenAPISpec) :
    List ContentItem :=
  match spec.xTagGroups with
  | some gs =>
    if 0 < gs.length then (getTagGroupsItems extract gs (getTagsWithOperations spec)).1
    else (getTagsItems extract (getTagsWithOperations spec) none).1
  | none => (getTagsItems extract (getTagsWithOperations spec) none).1

/-- One copy of `ext` per occurrence of the tag name `n` in a tag list. -/
def tagHits (n : String) (ext : ExtendedOpenAPIOperation) :
    List String → List ExtendedOpenAPIOperation
  | [] => []
  | s :: ss => (if s = n then [ext] else []) ++ tagHits n ext ss

def hasTag (n : String) : List String → Bool
  | [] => false
  | s :: ss => if s = n then true else hasTag n ss

/-- The operations accumulated for tag `n` from a discovery sequence of
(effective tag list, extended operation) pairs. -/
def opsIn (n : String) :
    List (List String × ExtendedOpenAPIOperation) → List ExtendedOpenAPIOperation
  | [] => []
  | p :: rest => tagHits n p.2 p.1 ++ opsIn n rest

def mentions (n : String) : List (List String × ExtendedOpenAPIOperation) → Bool
  | [] => false
  | p :: rest => if hasTag n p.1 then true else mentions n rest

/-- The discovery sequence of one path item: its operation entries in the path
item's own key declaration order (filtered to operation names by the caller),
each paired with its effective tag list. -/
def pathOpsList (pathName : String) (path : OpenAPIPath) :
    List (String × OpenAPIOperation) → List (List String × ExtendedOpenAPIOperation)
  | [] => []
  | (operationName, operationInfo) :: rest =>
    (effectiveTags operationInfo,
      extendOperation operationInfo pathName operationName path.parameters)
      :: pathOpsList pathName path rest

/-- The discovery sequence of a whole path map: paths in declaration order,
and inside each path the path item's keys in declaration order filtered
through `isOperationName`. -/
def specOpsList : List (String × OpenAPIPath) → List (List String × ExtendedOpenAPIOperation)
  | [] => []
  | (pathName, path) :: rest =>
    pathOpsList pathName path (path.ops.filter (fun e => isOperationName e.1))
      ++ specOpsList rest

/-- The operations the collector accumulates for tag `n`. -/
def opsForTag (spec : OpenAPISpec) (n : String) : List ExtendedOpenAPIOperation :=
  opsIn n (specOpsList spec.paths)

/-- Follows the spec's words (claim C3): the discovery sequence the claim
describes, in which the verbs of each path item are iterated in the fixed
enumerated order get, put, post, delete, options, head, patch, trace rather
than in the path item's declaration order. -/
def specOpsListFixedVerbOrder : List (String × OpenAPIPath) →
    List (List String × ExtendedOpenAPIOperation)
  | [] => []
  | (pathName, path) :: rest =>
    pathOpsList pathName path
      (["get", "put", "post", "delete", "options", "head", "patch", "trace"].filterMap
        (fun v => (Dict.get path.ops v).map (fun op => (v, op))))
      ++ specOpsListFixedVerbOrder rest

/-- Follows the spec's words (claim C3): the operations of tag `n` in the
claimed path-then-fixed-verb order. -/
def claimedOpsForTag (spec : OpenAPISpec) (n : String) : List ExtendedOpenAPIOperation :=
  opsIn n (specOpsListFixedVerbOrder spec.paths)

/-- Closed form of the items built by `getTagsItems` for a name list: for each
name, nothing when the map misses it, otherwise its `tagChunk` (with the
`used` mark applied), in order. -/
def itemsFor (extract : String → List Heading) (m : TagsInfoMap) :
    List String → List ContentItem
  | [] => []
  | n :: rest =>
    (match Dict.get m n with
     | none => []
     | some t => tagChunk extract (withUsed t)) ++ itemsFor extract m rest

/-- Closed form of the warnings of `getTagsItems`: one per missing name, in
iteration order. -/
def missingWarnings (m : TagsInfoMap) (groupName : String) : List String → List String
  | [] => []
  | n :: rest =>
    (match Dict.get m n with
     | none => [warnMsg n groupName]
     | some _ => []) ++ missingWarnings m groupName rest

/- ------------------------------------------------------------ observers -/

def nodeKindStr : ContentItem → String
  | ContentItem.group GroupKind.sect _ _ _ _ => "section"
  | ContentItem.group GroupKind.group _ _ _ _ => "group"
  | ContentItem.group GroupKind.tag _ _ _ _ => "tag"
  | ContentItem.operation _ _ => "operation"

def nodeDepth : ContentItem → Nat
  | ContentItem.group _ _ _ depth _ => depth
  | ContentItem.operation _ depth => depth

def nodeName : ContentItem → String
  | ContentItem.group _ name _ _ _ => name
  | ContentItem.operation info _ => info.httpVerb

/-- The (pathName, httpVerb) identities of a list of collected operations. -/
def opIds (l : List ExtendedOpenAPIOperation) : List (String × String) :=
  l.map (fun e => (e.pathName, e.httpVerb))

/-- The depth a Group of each kind is expected to carry: `GROUP_DEPTH + 1`
for `tag`-kind, `GROUP_DEPTH` for `group`-kind, anything for `section`s. -/
def kindDepthOk : GroupKind → Nat → Bool
  | GroupKind.tag, depth => depth = GROUP_DEPTH + 1
  | GroupKind.group, depth => depth = GROUP_DEPTH
  | GroupKind.sect, _ => true

/-- Deep check: every `tag`-kind Group in the forest has depth
`GROUP_DEPTH + 1` and every `group`-kind Group has depth `GROUP_DEPTH`. -/
def depthKindOkList : List ContentItem → Bool
  | [] => true
  | ContentItem.operation _ _ :: rest => depthKindOkList rest
  | ContentItem.group kind _ _ depth items :: rest =>
    kindDepthOk kind depth && depthKindOkList items && depthKindOkList rest

/-- An Operation placed directly under a Group of depth `depth` sits at
`depth + 1`. -/
def directOpOk (depth : Nat) : ContentItem → Bool
  | ContentItem.operation _ d => d = depth + 1
  | _ => true

/-- For a `tag`-kind Group, its direct Operation children must sit one level
below it; other kinds are unconstrained. -/
def tagOpsOk : GroupKind → Nat → List ContentItem → Bool
  | GroupKind.tag, depth, items => items.all (directOpOk depth)
  | GroupKind.group, _, _ => true
  | GroupKind.sect, _, _ => true

/-- Deep check: every Operation node has depth `GROUP_DEPTH + 2`, and every
Operation directly inside a `tag`-kind Group has that Group's depth + 1. -/
def opsDepthOkList : List ContentItem → Bool
  | [] => true
  | ContentItem.operation _ d :: rest => (d = GROUP_DEPTH + 2) && opsDepthOkList rest
  | ContentItem.group kind _ _ depth items :: rest =>
    tagOpsOk kind depth items && opsDepthOkList items && opsDepthOkList rest

/- ------------------------------------------------------------ Dict lemmas -/

theorem Dict.get_set {α : Type} (m : Dict α) (k : String) (v : α) (n : String) :
    Dict.get (Dict.set m k v) n = if k = n then some v else Dict.get m n := by
  induction m with
  | nil => by_cases h : k = n <;> simp [Dict.set, Dict.get, h]
  | cons e rest ih =>
    obtain ⟨k', w⟩ := e
    by_cases hk : k' = k
    · subst hk
      by_cases hn : k' = n <;> simp [Dict.set, Dict.get, hn]
    · by_cases hn : k' = n
      · subst hn
        have : ¬ k = k' := fun h => hk h.symm
        simp [Dict.set, Dict.get, hk, this]
      · simp [Dict.set, Dict.get, hk, hn, ih]

theorem Dict.set_set {α : Type} (m : Dict α) (k : String) (v w : α) :
    Dict.set (Dict.set m k v) k w = Dict.set m k w := by
  induction m with
  | nil => simp [Dict.set]
  | cons e rest ih =>
    obtain ⟨k', u⟩ := e
    by_cases hk : k' = k <;> simp [Dict.set, hk, ih]

theorem Dict.mem_keys_of_get {α : Type} (m : Dict α) (k : String) (v : α)
    (h : Dict.get m k = some v) : k ∈ Dict.keys m := by
  induction m with
  | nil => simp [Dict.get] at h
  | cons e rest ih =>
    obtain ⟨k', w⟩ := e
    by_cases hk : k' = k
    · simp [Dict.keys, hk]
    · simp only [Dict.get, if_neg hk] at h
      simp [Dict.keys] at ih ⊢
      exact Or.inr (ih h)

theorem Dict.get_isSome_of_mem_keys {α : Type} (m : Dict α) (k : String)
    (h : k ∈ Dict.keys m) : ∃ v, Dict.get m k = some v := by
  induction m with
  | nil => simp [Dict.keys] at h
  | cons e rest ih =>
    obtain ⟨k', w⟩ := e
    by_cases hk : k' = k
    · exact ⟨w, by simp [Dict.get, hk]⟩
    · simp only [Dict.keys, List.map_cons, List.mem_cons] at h
      rcases h with h | h
      · exact absurd h.symm hk
      · obtain ⟨v, hv⟩ := ih h
        exact ⟨v, by simp [Dict.get, hk, hv]⟩

/- ------------------------------------------- collector characterization -/

theorem withUsed_idem (t : TagInfo) : withUsed (withUsed t) = withUsed t := rfl

theorem tagHits_of_hasTag_false (n : String) (ext : ExtendedOpenAPIOperation)
    (ts : List String) (h : hasTag n ts = false) : tagHits n ext ts = [] := by
  induction ts with
  | nil => rfl
  | cons s ss ih =>
    by_cases hs : s = n
    · simp [hasTag, hs] at h
    · simp only [hasTag, if_neg hs] at h
      simp [tagHits, hs, ih h]

theorem opsIn_append (n : String) (a b : List (List String × ExtendedOpenAPIOperation)) :
    opsIn n (a ++ b) = opsIn n a ++ opsIn n b := by
  induction a with
  | nil => simp [opsIn]
  | cons p rest ih => simp [opsIn, ih]

theorem mentions_append (n : String) (a b : List (List String × ExtendedOpenAPIOperation)) :
    mentions n (a ++ b) = (mentions n a || mentions n b) := by
  induction a with
  | nil => simp [mentions]
  | cons p rest ih =>
    by_cases hp : hasTag n p.1 = true <;> simp [mentions, hp, ih]

theorem opsIn_of_mentions_false (n : String)
    (l : List (List String × ExtendedOpenAPIOperation)) (h : mentions n l = false) :
    opsIn n l = [] := by
  induction l with
  | nil => rfl
  | cons p rest ih =>
    by_cases hp : hasTag n p.1 = true
    · simp [mentions, hp] at h
    · simp only [mentions, if_neg hp] at h
      simp only [Bool.not_eq_true] at hp
      simp [opsIn, tagHits_of_hasTag_false n p.2 p.1 hp, ih h]

/-- The value `Dict.get · n` takes after the collector has processed the
discovery sequence `l`, as a function of the value before. -/
def collectorGetO (l : List (List String × ExtendedOpenAPIOperation)) (n : String) :
    Option TagInfo → Option TagInfo
  | some t =>
    some { t with operations := t.operations ++ (if t.xTraitTag then [] else opsIn n l) }
  | none =>
    if mentions n l then some { freshTagInfo n with operations := opsIn n l } else none

theorem collectorGetO_comp (l1 l2 : List (List String × ExtendedOpenAPIOperation))
    (n : String) (o : Option TagInfo) :
    collectorGetO l2 n (collectorGetO l1 n o) = collectorGetO (l1 ++ l2) n o := by
  cases o with
  | some t =>
    cases ht : t.xTraitTag <;>
      simp [collectorGetO, ht, opsIn_append, List.append_assoc]
  | none =>
    cases hm : mentions n l1 with
    | false =>
      simp [collectorGetO, hm, mentions_append, opsIn_append,
        opsIn_of_mentions_false n l1 hm]
    | true =>
      simp [collectorGetO, hm, mentions_append, opsIn_append, freshTagInfo]

theorem get_addOperationToTag (m : TagsInfoMap) (tn : String)
    (ext : ExtendedOpenAPIOperation) (n : String) :
    Dict.get (addOperationToTag m tn ext) n =
      if tn = n then
        (match Dict.get m n with
         | some t =>
           some (if t.xTraitTag then t
             else { t with operations := t.operations ++ [ext] })
         | none => some { freshTagInfo n with operations := [ext] })
      else Dict.get m n := by
  by_cases htn : tn = n
  · subst htn
    cases hm : Dict.get m tn with
    | some t =>
      cases ht : t.xTraitTag with
      | true => simp [addOperationToTag, hm, ht]
      | false => simp [addOperationToTag, hm, ht, Dict.get_set]
    | none =>
      simp [addOperationToTag, hm, Dict.set_set, Dict.get_set, freshTagInfo]
  · cases hm : Dict.get m tn with
    | some t =>
      cases ht : t.xTraitTag with
      | true => simp [addOperationToTag, hm, ht, htn]
      | false => simp [addOperationToTag, hm, ht, htn, Dict.get_set]
    | none =>
      simp [addOperationToTag, hm, htn, Dict.set_set, Dict.get_set]

theorem get_addOperationTags (ts : List String) (ext : ExtendedOpenAPIOperation)
    (m : TagsInfoMap) (n : String) :
    Dict.get (addOperationTags ts ext m) n =
      match Dict.get m n with
      | some t =>
        some { t with operations :=
          t.operations ++ (if t.xTraitTag then [] else tagHits n ext ts) }
      | none =>
        if hasTag n ts then some { freshTagInfo n with operations := tagHits n ext ts }
        else none := by
  induction ts generalizing m with
  | nil =>
    cases hm : Dict.get m n with
    | some t => simp [addOperationTags, hm, tagHits, hasTag]
    | none => simp [addOperationTags, hm, tagHits, hasTag]
  | cons tn ts ih =>
    simp only [addOperationTags]
    rw [ih, get_addOperationToTag]
    by_cases htn : tn = n
    · subst htn
      cases hm : Dict.get m tn with
      | some t =>
        cases ht : t.xTraitTag with
        | true => simp [hm, ht, tagHits]
        | false => simp [hm, ht, tagHits]
      | none => simp [hm, tagHits, hasTag, freshTagInfo]
    · cases hm : Dict.get m n with
      | some t => simp [hm, htn, tagHits, hasTag]
      | none => simp [hm, htn, tagHits, hasTag]

theorem get_addOperationTags_collector (ts : List String)
    (ext : ExtendedOpenAPIOperation) (m : TagsInfoMap) (n : String) :
    Dict.get (addOperationTags ts ext m) n =
      collectorGetO [(ts, ext)] n (Dict.get m n) := by
  rw [get_addOperationTags]
  cases hm : Dict.get m n with
  | some t => simp [collectorGetO, opsIn]
  | none =>
    by_cases hh : hasTag n ts = true <;> simp [collectorGetO, mentions, opsIn, hh]

theorem get_addPathOperations (pathName : String) (path : OpenAPIPath)
    (entries : List (String × OpenAPIOperation)) (m : TagsInfoMap) (n : String) :
    Dict.get (addPathOperations pathName path entries m) n =
      collectorGetO (pathOpsList pathName path entries) n (Dict.get m n) := by
  induction entries generalizing m with
  | nil =>
    cases hm : Dict.get m n with
    | some t => simp [addPathOperations, pathOpsList, collectorGetO, hm, opsIn]
    | none => simp [addPathOperations, pathOpsList, collectorGetO, hm, mentions]
  | cons e rest ih =>
    obtain ⟨operationName, operationInfo⟩ := e
    simp only [addPathOperations, pathOpsList]
    rw [ih, get_addOperationTags_collector, collectorGetO_comp]
    rfl

theorem get_addPaths (ps : List (String × OpenAPIPath)) (m : TagsInfoMap) (n : String) :
    Dict.get (addPaths ps m) n = collectorGetO (specOpsList ps) n (Dict.get m n) := by
  induction ps generalizing m with
  | nil =>
    cases hm : Dict.get m n with
    | some t => simp [addPaths, specOpsList, collectorGetO, hm, opsIn]
    | none => simp [addPaths, specOpsList, collectorGetO, hm, mentions]
  | cons e rest ih =>
    obtain ⟨pathName, path⟩ := e
    simp only [addPaths, specOpsList]
    rw [ih, get_addPathOperations, collectorGetO_comp]

/-- The main characterization of `getTagsWithOperations`: what an entry looks
up to, as a function of the seeded entry and the discovery sequence. -/
theorem get_getTagsWithOperations (spec : OpenAPISpec) (n : String) :
    Dict.get (getTagsWithOperations spec) n =
      collectorGetO (specOpsList spec.paths) n
        (Dict.get (seedTags (spec.tags.getD []) []) n) := by
  unfold getTagsWithOperations
  exact get_addPaths _ _ _

/- ----------------------------------------------------------- seed lemmas -/

theorem seedTags_invariant (P : String → TagInfo → Prop)
    (hseed : ∀ dt : OpenAPITag, P dt.name (seedTagInfo dt)) :
    ∀ (ts : List OpenAPITag) (m : TagsInfoMap),
      (∀ k t, Dict.get m k = some t → P k t) →
      ∀ k t, Dict.get (seedTags ts m) k = some t → P k t := by
  intro ts
  induction ts with
  | nil => intro m hm k t h; exact hm k t h
  | cons dt rest ih =>
    intro m hm k t h
    refine ih (Dict.set m dt.name (seedTagInfo dt)) ?_ k t h
    intro k' t' h'
    rw [Dict.get_set] at h'
    by_cases hk : dt.name = k'
    · rw [if_pos hk] at h'
      cases h'
      exact hk ▸ hseed dt
    · rw [if_neg hk] at h'
      exact hm k' t' h'

theorem seed_name (ts : List OpenAPITag) (k : String) (t : TagInfo)
    (h : Dict.get (seedTags ts []) k = some t) : t.name = k :=
  seedTags_invariant (fun k t => t.name = k) (fun _ => rfl) ts []
    (by intro k' t' h'; simp [Dict.get] at h') k t h

theorem seed_operations (ts : List OpenAPITag) (k : String) (t : TagInfo)
    (h : Dict.get (seedTags ts []) k = some t) : t.operations = [] :=
  seedTags_invariant (fun _ t => t.operations = []) (fun _ => rfl) ts []
    (by intro k' t' h'; simp [Dict.get] at h') k t h

theorem seed_provenance_aux :
    ∀ (ts : List OpenAPITag) (m : TagsInfoMap) (k : String) (t : TagInfo),
      Dict.get (seedTags ts m) k = some t →
      (∃ dt ∈ ts, dt.name = k ∧ t = seedTagInfo dt) ∨ Dict.get m k = some t := by
  intro ts
  induction ts with
  | nil => intro m k t h; exact Or.inr h
  | cons dt rest ih =>
    intro m k t h
    rcases ih _ k t h with h' | h'
    · obtain ⟨dt', hmem, hname, ht⟩ := h'
      exact Or.inl ⟨dt', List.mem_cons_of_mem _ hmem, hname, ht⟩
    · rw [Dict.get_set] at h'
      by_cases hk : dt.name = k
      · rw [if_pos hk] at h'
        cases h'
        exact Or.inl ⟨dt, List.mem_cons_self _ _, hk, rfl⟩
      · rw [if_neg hk] at h'
        exact Or.inr h'

theorem seed_provenance (ts : List OpenAPITag) (k : String) (t : TagInfo)
    (h : Dict.get (seedTags ts []) k = some t) :
    ∃ dt ∈ ts, dt.name = k ∧ t = seedTagInfo dt := by
  rcases seed_provenance_aux ts [] k t h with h' | h'
  · exact h'
  · simp [Dict.get] at h'

/- ----------------------------------------- getTagsItems characterization -/

theorem itemsFor_set_withUsed (extract : String → List Heading) (m : TagsInfoMap)
    (n : String) (t : TagInfo) (h : Dict.get m n = some t) :
    ∀ names, itemsFor extract (Dict.set m n (withUsed t)) names = itemsFor extract m names := by
  intro names
  induction names with
  | nil => rfl
  | cons k rest ih =>
    simp only [itemsFor, ih]
    rw [Dict.get_set]
    by_cases hk : n = k
    · subst hk
      rw [if_pos rfl, h]
      simp [withUsed_idem]
    · rw [if_neg hk]

theorem missingWarnings_set (m : TagsInfoMap) (g : String) (n : String) (v : TagInfo)
    (hv : ∃ t, Dict.get m n = some t) :
    ∀ names, missingWarnings (Dict.set m n v) g names = missingWarnings m g names := by
  intro names
  induction names with
  | nil => rfl
  | cons k rest ih =>
    simp only [missingWarnings, ih]
    rw [Dict.get_set]
    by_cases hk : n = k
    · subst hk
      obtain ⟨t, ht⟩ := hv
      rw [if_pos rfl, ht]
    · rw [if_neg hk]

theorem buildTagItems_collectTags (extract : String → List Heading) (g : String) :
    ∀ (names : List String) (m : TagsInfoMap),
      buildTagItems extract (collectTags g m names).1 = itemsFor extract m names := by
  intro names
  induction names with
  | nil => intro m; rfl
  | cons n rest ih =>
    intro m
    cases hm : Dict.get m n with
    | none => simp [collectTags, hm, buildTagItems, itemsFor, ih]
    | some t =>
      simp only [collectTags, hm, buildTagItems, itemsFor]
      rw [ih, itemsFor_set_withUsed extract m n t hm]

theorem warnings_collectTags (g : String) :
    ∀ (names : List String) (m : TagsInfoMap),
      (collectTags g m names).2.2 = missingWarnings m g names := by
  intro names
  induction names with
  | nil => intro m; rfl
  | cons n rest ih =>
    intro m
    cases hm : Dict.get m n with
    | none => simp [collectTags, hm, missingWarnings, ih]
    | some t =>
      simp only [collectTags, hm, missingWarnings]
      rw [ih, missingWarnings_set m g n (withUsed t) ⟨t, hm⟩]
      simp

theorem map_collectTags (g : String) :
    ∀ (names : List String) (m : TagsInfoMap) (k : String),
      Dict.get (collectTags g m names).2.1 k =
        match Dict.get m k with
        | none => none
        | some t => if hasTag k names then some (withUsed t) else some t := by
  intro names
  induction names with
  | nil =>
    intro m k
    cases hm : Dict.get m k <;> simp [collectTags, hm, hasTag]
  | cons n rest ih =>
    intro m k
    cases hm : Dict.get m n with
    | none =>
      simp only [collectTags, hm]
      rw [ih]
      by_cases hk : n = k
      · subst hk
        simp [hm]
      · cases hmk : Dict.get m k with
        | none => simp [hmk]
        | some t => simp [hmk, hasTag, hk]
    | some t =>
      simp only [collectTags, hm]
      rw [ih, Dict.get_set]
      by_cases hk : n = k
      · subst hk
        rw [if_pos rfl, hm]
        by_cases hr : hasTag n rest = true <;> simp [hasTag, hr, withUsed_idem]
      · rw [if_neg hk]
        cases hmk : Dict.get m k with
        | none => simp [hmk]
        | some u => simp [hmk, hasTag, hk]

theorem getTagsItems_items_all (extract : String → List Heading) (m : TagsInfoMap) :
    (getTagsItems extract m none).1 = itemsFor extract m (Dict.keys m) :=
  buildTagItems_collectTags extract "" (Dict.keys m) m

theorem getTagsItems_items_group (extract : String → List Heading) (m : TagsInfoMap)
    (g : TagGroup) :
    (getTagsItems extract m (some g)).1 = itemsFor extract m g.tags :=
  buildTagItems_collectTags extract g.name g.tags m

theorem getTagsItems_warnings_group (extract : String → List Heading) (m : TagsInfoMap)
    (g : TagGroup) :
    (getTagsItems extract m (some g)).2.2 = missingWarnings m g.name g.tags :=
  warnings_collectTags g.name g.tags m

theorem getTagsItems_map_all (extract : String → List Heading) (m : TagsInfoMap)
    (k : String) :
    Dict.get (getTagsItems extract m none).2.1 k =
      match Dict.get m k with
      | none => none
      | some t => if hasTag k (Dict.keys m) then some (withUsed t) else some t :=
  map_collectTags "" (Dict.keys m) m k

theorem getTagsItems_map_group (extract : String → List Heading) (m : TagsInfoMap)
    (g : TagGroup) (k : String) :
    Dict.get (getTagsItems extract m (some g)).2.1 k =
      match Dict.get m k with
      | none => none
      | some t => if hasTag k g.tags then some (withUsed t) else some t :=
  map_collectTags g.name g.tags m k

/-- Key membership implies `hasTag` over the same list. -/
theorem hasTag_of_mem (k : String) : ∀ (l : List String), k ∈ l → hasTag k l = true := by
  intro l
  induction l with
  | nil => intro h; simp at h
  | cons s ss ih =>
    intro h
    by_cases hs : s = k
    · simp [hasTag, hs]
    · rcases List.mem_cons.mp h with h' | h'
      · exact absurd h'.symm hs
      · simp [hasTag, hs, ih h']

/- ------------------------------------------------------- checker lemmas -/

theorem depthKindOkList_append (a b : List ContentItem) :
    depthKindOkList (a ++ b) = (depthKindOkList a && depthKindOkList b) := by
  induction a with
  | nil => simp [depthKindOkList]
  | cons x xs ih =>
    cases x with
    | operation info d => simp [depthKindOkList, ih]
    | group kind name description depth items =>
      simp [depthKindOkList, ih, Bool.and_assoc]

theorem opsDepthOkList_append (a b : List ContentItem) :
    opsDepthOkList (a ++ b) = (opsDepthOkList a && opsDepthOkList b) := by
  induction a with
  | nil => simp [opsDepthOkList]
  | cons x xs ih =>
    cases x with
    | operation info d => simp [opsDepthOkList, ih, Bool.and_assoc]
    | group kind name description depth items =>
      simp [opsDepthOkList, ih, Bool.and_assoc]

theorem depthKindOkList_mapHeadingsDeep :
    ∀ (l : List Heading) (d : Nat), depthKindOkList (mapHeadingsDeep l d) = true := by
  intro l d
  induction l, d using mapHeadingsDeep.induct with
  | case1 d => simp [mapHeadingsDeep, depthKindOkList]
  | case2 name description hitems rest depth ih1 ih2 =>
    simp [mapHeadingsDeep, depthKindOkList, kindDepthOk, ih1, ih2]

theorem opsDepthOkList_mapHeadingsDeep :
    ∀ (l : List Heading) (d : Nat), opsDepthOkList (mapHeadingsDeep l d) = true := by
  intro l d
  induction l, d using mapHeadingsDeep.induct with
  | case1 d => simp [mapHeadingsDeep, opsDepthOkList]
  | case2 name description hitems rest depth ih1 ih2 =>
    simp [mapHeadingsDeep, opsDepthOkList, tagOpsOk, ih1, ih2]

theorem depthKindOkList_opsMap (ops : List ExtendedOpenAPIOperation) (d : Nat) :
    depthKindOkList (ops.map (fun operationInfo => ContentItem.operation operationInfo d)) = true := by
  induction ops with
  | nil => simp [depthKindOkList]
  | cons o rest ih => simp [depthKindOkList, ih]

theorem opsDepthOkList_opsMap (ops : List ExtendedOpenAPIOperation) :
    opsDepthOkList (ops.map (fun operationInfo =>
      ContentItem.operation operationInfo (GROUP_DEPTH + 1 + 1))) = true := by
  induction ops with
  | nil => simp [opsDepthOkList]
  | cons o rest ih =>
    simp [opsDepthOkList, GROUP_DEPTH] at ih ⊢
    exact ih

theorem depthKindOkList_getOperationsItems (t : TagInfo) (d : Nat) :
    depthKindOkList (getOperationsItems t d) = true := by
  unfold getOperationsItems
  by_cases h : t.operations.length = 0
  · simp [h, depthKindOkList]
  · simp [h, depthKindOkList_opsMap]

theorem opsDepthOkList_getOperationsItems (t : TagInfo) :
    opsDepthOkList (getOperationsItems t (GROUP_DEPTH + 1 + 1)) = true := by
  unfold getOperationsItems
  by_cases h : t.operations.length = 0
  · simp [h, opsDepthOkList]
  · simp [h, opsDepthOkList_opsMap]

theorem depthKindOkList_tagChunk (extract : String → List Heading) (t : TagInfo) :
    depthKindOkList (tagChunk extract t) = true := by
  unfold tagChunk addMarkdownItems
  by_cases h : t.name = ""
  · simp [h, depthKindOkList_append, depthKindOkList_mapHeadingsDeep,
      depthKindOkList_getOperationsItems]
  · simp [h, depthKindOkList, kindDepthOk, depthKindOkList_append,
      depthKindOkList_mapHeadingsDeep, depthKindOkList_getOperationsItems]

theorem all_directOpOk_mapHeadingsDeep (l : List Heading) (d k : Nat) :
    (mapHeadingsDeep l d).all (directOpOk k) = true := by
  induction l, d using mapHeadingsDeep.induct with
  | case1 d => simp [mapHeadingsDeep]
  | case2 name description hitems rest depth ih1 ih2 =>
    simp only [mapHeadingsDeep, List.all_cons, ih2, Bool.and_true]
    rfl

theorem all_directOpOk_opsMap (l : List ExtendedOpenAPIOperation) (d : Nat) :
    (l.map (fun operationInfo => ContentItem.operation operationInfo (d + 1))).all
      (directOpOk d) = true := by
  induction l with
  | nil => rfl
  | cons o rest ih => simp [directOpOk, ih]

theorem all_directOpOk_getOperationsItems (t : TagInfo) :
    (getOperationsItems t (GROUP_DEPTH + 1 + 1)).all (directOpOk (GROUP_DEPTH + 1)) = true := by
  unfold getOperationsItems
  by_cases h : t.operations.length = 0
  · simp [h]
  · simp [h, all_directOpOk_opsMap]

theorem opsDepthOkList_tagChunk (extract : String → List Heading) (t : TagInfo) :
    opsDepthOkList (tagChunk extract t) = true := by
  unfold tagChunk addMarkdownItems
  by_cases h : t.name = ""
  · simp [h, opsDepthOkList_append, opsDepthOkList_mapHeadingsDeep,
      opsDepthOkList_getOperationsItems]
  · simp [h, opsDepthOkList, tagOpsOk, List.all_append,
      all_directOpOk_mapHeadingsDeep, all_directOpOk_getOperationsItems,
      opsDepthOkList_append, opsDepthOkList_mapHeadingsDeep,
      opsDepthOkList_getOperationsItems]

theorem depthKindOkList_itemsFor (extract : String → List Heading) (m : TagsInfoMap) :
    ∀ names, depthKindOkList (itemsFor extract m names) = true := by
  intro names
  induction names with
  | nil => simp [itemsFor, depthKindOkList]
  | cons n rest ih =>
    cases hm : Dict.get m n with
    | none => simp [itemsFor, hm, ih]
    | some t => simp [itemsFor, hm, depthKindOkList_append, depthKindOkList_tagChunk, ih]

theorem opsDepthOkList_itemsFor (extract : String → List Heading) (m : TagsInfoMap) :
    ∀ names, opsDepthOkList (itemsFor extract m names) = true := by
  intro names
  induction names with
  | nil => simp [itemsFor, opsDepthOkList]
  | cons n rest ih =>
    cases hm : Dict.get m n with
    | none => simp [itemsFor, hm, ih]
    | some t => simp [itemsFor, hm, opsDepthOkList_append, opsDepthOkList_tagChunk, ih]

theorem depthKindOkList_getTagGroupsItems (extract : String → List Heading) :
    ∀ (gs : List TagGroup) (m : TagsInfoMap),
      depthKindOkList (getTagGroupsItems extract gs m).1 = true := by
  intro gs
  induction gs with
  | nil => intro m; simp [getTagGroupsItems, depthKindOkList]
  | cons g rest ih =>
    intro m
    simp only [getTagGroupsItems, depthKindOkList, getTagsItems_items_group]
    simp [kindDepthOk, depthKindOkList_itemsFor, ih]

theorem opsDepthOkList_getTagGroupsItems (extract : String → List Heading) :
    ∀ (gs : List TagGroup) (m : TagsInfoMap),
      opsDepthOkList (getTagGroupsItems extract gs m).1 = true := by
  intro gs
  induction gs with
  | nil => intro m; simp [getTagGroupsItems, opsDepthOkList]
  | cons g rest ih =>
    intro m
    simp only [getTagGroupsItems, opsDepthOkList, getTagsItems_items_group]
    simp [tagOpsOk, opsDepthOkList_itemsFor, ih]

/-- `buildStructure` is the markdown items followed by the tag section. -/
theorem buildStructure_decomposition (extract : String → List Heading) (spec : OpenAPISpec) :
    buildStructure extract spec =
      addMarkdownItems extract (spec.info.description.getD "") ++ tagSection extract spec := by
  unfold buildStructure buildStructureFull tagSection
  cases hx : spec.xTagGroups with
  | none => rfl
  | some gs =>
    by_cases h : 0 < gs.length <;> simp [h]

theorem depthKindOkList_tagSection (extract : String → List Heading) (spec : OpenAPISpec) :
    depthKindOkList (tagSection extract spec) = true := by
  unfold tagSection
  cases hx : spec.xTagGroups with
  | none => simp [getTagsItems_items_all, depthKindOkList_itemsFor]
  | some gs =>
    by_cases h : 0 < gs.length <;>
      simp [h, depthKindOkList_getTagGroupsItems, getTagsItems_items_all,
        depthKindOkList_itemsFor]

theorem opsDepthOkList_tagSection (extract : String → List Heading) (spec : OpenAPISpec) :
    opsDepthOkList (tagSection extract spec) = true := by
  unfold tagSection
  cases hx : spec.xTagGroups with
  | none => simp [getTagsItems_items_all, opsDepthOkList_itemsFor]
  | some gs =>
    by_cases h : 0 < gs.length <;>
      simp [h, opsDepthOkList_getTagGroupsItems, getTagsItems_items_all,
        opsDepthOkList_itemsFor]

/- ----------------------------------------------------- shape projections -/

def nodeShape (i : ContentItem) : String × String × Nat :=
  (nodeKindStr i, nodeName i, nodeDepth i)

theorem getTagGroupsItems_shape (extract : String → List Heading) :
    ∀ (gs : List TagGroup) (m : TagsInfoMap),
      (getTagGroupsItems extract gs m).1.map nodeShape =
        gs.map (fun g => ("group", g.name, GROUP_DEPTH)) := by
  intro gs
  induction gs with
  | nil => intro m; rfl
  | cons g rest ih =>
    intro m
    simp [getTagGroupsItems, nodeShape, nodeKindStr, nodeName, nodeDepth, ih]

theorem itemsFor_shape (extract : String → List Heading) (m : TagsInfoMap) :
    ∀ names, (∀ k ∈ names, ∃ t, Dict.get m k = some t ∧ t.name = k ∧ k ≠ "") →
      (itemsFor extract m names).map nodeShape =
        names.map (fun k => ("tag", k, GROUP_DEPTH + 1)) := by
  intro names
  induction names with
  | nil => intro _; rfl
  | cons n rest ih =>
    intro h
    obtain ⟨t, ht, hname, hne⟩ := h n (List.mem_cons_self _ _)
    have hrest := ih (fun k hk => h k (List.mem_cons_of_mem _ hk))
    simp only [itemsFor, ht, List.map_append, hrest, tagChunk]
    simp [hne, nodeShape, nodeKindStr, nodeName, nodeDepth, withUsed, hname]

/-- Every key of a `Dict` has an entry, so `itemsFor` over the keys is the
itemised form of "one chunk per tag of the map". -/
theorem mem_keys_entry (m : TagsInfoMap) (k : String) (h : k ∈ Dict.keys m) :
    ∃ t, Dict.get m k = some t :=
  Dict.get_isSome_of_mem_keys m k h

/-- Every entry of `getTagsWithOperations` carries the name it is keyed by. -/
theorem getTagsWithOperations_name (spec : OpenAPISpec) (k : String) (t : TagInfo)
    (h : Dict.get (getTagsWithOperations spec) k = some t) : t.name = k := by
  rw [get_getTagsWithOperations] at h
  cases hs : Dict.get (seedTags (spec.tags.getD []) []) k with
  | some t0 =>
    rw [hs] at h
    simp only [collectorGetO] at h
    cases h
    exact seed_name (spec.tags.getD []) k t0 hs
  | none =>
    rw [hs] at h
    simp only [collectorGetO] at h
    by_cases hm : mentions k (specOpsList spec.paths) = true
    · rw [if_pos hm] at h
      cases h
      rfl
    · rw [if_neg hm] at h
      cases h

/- -------------------------------------------------- membership lemmas -/

theorem mem_tagHits (n : String) (ext : ExtendedOpenAPIOperation) :
    ∀ ts : List String, n ∈ ts → ext ∈ tagHits n ext ts := by
  intro ts
  induction ts with
  | nil => intro h; simp at h
  | cons s ss ih =>
    intro h
    by_cases hs : s = n
    · simp [tagHits, hs]
    · rcases List.mem_cons.mp h with h' | h'
      · exact absurd h'.symm hs
      · simp only [tagHits, if_neg hs, List.nil_append]
        exact ih h'

theorem mem_opsIn (n : String) (ext : ExtendedOpenAPIOperation)
    (ts : List String) :
    ∀ l : List (List String × ExtendedOpenAPIOperation),
      (ts, ext) ∈ l → n ∈ ts → ext ∈ opsIn n l := by
  intro l
  induction l with
  | nil => intro h; simp at h
  | cons p rest ih =>
    intro hmem hn
    rcases List.mem_cons.mp hmem with h' | h'
    · cases h'
      simp only [opsIn]
      exact List.mem_append_left _ (mem_tagHits n ext ts hn)
    · simp only [opsIn]
      exact List.mem_append_right _ (ih h' hn)

theorem mem_pathOpsList (pathName : String) (path : OpenAPIPath)
    (verb : String) (op : OpenAPIOperation) :
    ∀ entries : List (String × OpenAPIOperation), (verb, op) ∈ entries →
      (effectiveTags op, extendOperation op pathName verb path.parameters)
        ∈ pathOpsList pathName path entries := by
  intro entries
  induction entries with
  | nil => intro h; simp at h
  | cons e rest ih =>
    intro h
    rcases List.mem_cons.mp h with h' | h'
    · cases h'
      simp [pathOpsList]
    · obtain ⟨k, o⟩ := e
      simp only [pathOpsList]
      exact List.mem_cons_of_mem _ (ih h')

theorem mem_specOpsList (pathName : String) (path : OpenAPIPath)
    (verb : String) (op : OpenAPIOperation)
    (hop : (verb, op) ∈ path.ops) (hverb : isOperationName verb = true) :
    ∀ ps : List (String × OpenAPIPath), (pathName, path) ∈ ps →
      (effectiveTags op, extendOperation op pathName verb path.parameters)
        ∈ specOpsList ps := by
  intro ps
  induction ps with
  | nil => intro h; simp at h
  | cons e rest ih =>
    intro h
    rcases List.mem_cons.mp h with h' | h'
    · cases h'
      simp only [specOpsList]
      refine List.mem_append_left _ (mem_pathOpsList pathName path verb op _ ?_)
      exact List.mem_filter.mpr ⟨hop, hverb⟩
    · obtain ⟨pn, p⟩ := e
      simp only [specOpsList]
      exact List.mem_append_right _ (ih h')

theorem mem_itemsFor (extract : String → List Heading) (m : TagsInfoMap)
    (n : String) (t : TagInfo) (x : ContentItem)
    (ht : Dict.get m n = some t) (hx : x ∈ tagChunk extract (withUsed t)) :
    ∀ names, n ∈ names → x ∈ itemsFor extract m names := by
  intro names
  induction names with
  | nil => intro h; simp at h
  | cons k rest ih =>
    intro h
    rcases List.mem_cons.mp h with h' | h'
    · subst h'
      simp only [itemsFor, ht]
      exact List.mem_append_left _ hx
    · simp only [itemsFor]
      exact List.mem_append_right _ (ih h')

/- --------------------------------------------------- further helpers -/

theorem mapHeadingsDeep_top (l : List Heading) :
    ∀ (d : Nat) (x : ContentItem), x ∈ mapHeadingsDeep l d →
      nodeDepth x = d ∧ nodeKindStr x = "section" := by
  induction l with
  | nil => intro d x hx; simp [mapHeadingsDeep] at hx
  | cons hd rest ih =>
    intro d x hx
    obtain ⟨name, description, hitems⟩ := hd
    simp only [mapHeadingsDeep, List.mem_cons] at hx
    rcases hx with rfl | hx
    · exact ⟨rfl, rfl⟩
    · exact ih d x hx

theorem getOperationsItems_depth (t : TagInfo) (d : Nat) (x : ContentItem)
    (hx : x ∈ getOperationsItems t d) : nodeDepth x = d := by
  unfold getOperationsItems at hx
  by_cases h0 : t.operations.length = 0
  · simp [h0] at hx
  · simp only [if_neg h0, List.mem_map] at hx
    obtain ⟨o, _, rfl⟩ := hx
    rfl

theorem mem_getOperationsItems (t : TagInfo) (d : Nat)
    (ext : ExtendedOpenAPIOperation) (h : ext ∈ t.operations) :
    ContentItem.operation ext d ∈ getOperationsItems t d := by
  unfold getOperationsItems
  by_cases h0 : t.operations.length = 0
  · rw [List.length_eq_zero] at h0
    rw [h0] at h
    simp at h
  · simp only [if_neg h0, List.mem_map]
    exact ⟨ext, h, rfl⟩

theorem mem_missingWarnings (m : TagsInfoMap) (g : String) (n : String)
    (hn : Dict.get m n = none) :
    ∀ names, n ∈ names → warnMsg n g ∈ missingWarnings m g names := by
  intro names
  induction names with
  | nil => intro h; simp at h
  | cons k rest ih =>
    intro h
    rcases List.mem_cons.mp h with h' | h'
    · subst h'
      simp only [missingWarnings, hn]
      exact List.mem_append_left _ (List.mem_singleton_self _)
    · simp only [missingWarnings]
      exact List.mem_append_right _ (ih h')

theorem mentions_of_mem_opsIn (n : String)
    (l : List (List String × ExtendedOpenAPIOperation))
    (ext : ExtendedOpenAPIOperation) (h : ext ∈ opsIn n l) : mentions n l = true := by
  by_cases hm : mentions n l = true
  · exact hm
  · rw [opsIn_of_mentions_false n l (Bool.not_eq_true _ ▸ hm)] at h
    simp at h

/- ----------------------------------------------------- concrete fixtures -/

/-- A heading extractor that finds no headings. -/
def extract0 : String → List Heading := fun _ => []

/-- A heading extractor that finds one heading in the text "d". -/
def extract1 : String → List Heading :=
  fun s => if s = "d" then [Heading.mk "h" none []] else []

def opNoTags : OpenAPIOperation := { tags := none, operationId := some "o1" }

def opTagT : OpenAPIOperation := { tags := some ["t"], operationId := none }

def opTagTr : OpenAPIOperation := { tags := some ["tr"], operationId := none }

/-- One declared tag "a", no paths, no tag groups. -/
def exC1 : OpenAPISpec :=
  { info := { description := none },
    tags := some [{ name := "a", description := none, xTraitTag := false }],
    paths := [], xTagGroups := none }

/-- No declared tags, a single untagged operation. -/
def exC2 : OpenAPISpec :=
  { info := { description := none }, tags := none,
    paths := [("/p", { ops := [("get", opNoTags)], parameters := none })],
    xTagGroups := none }

/-- One path declaring "post" before "get", both tagged "t". -/
def exC3 : OpenAPISpec :=
  { info := { description := none }, tags := none,
    paths := [("/p", { ops := [("post", opTagT), ("get", opTagT)], parameters := none })],
    xTagGroups := none }

def tC3 : TagInfo :=
  { name := "t", description := none, xTraitTag := false, used := false,
    operations :=
      [{ op := opTagT, pathName := "/p", httpVerb := "post", pathParameters := [] },
       { op := opTagT, pathName := "/p", httpVerb := "get", pathParameters := [] }] }

/-- The anonymous tag declared with description "d", plus one untagged operation. -/
def exC4 : OpenAPISpec :=
  { info := { description := none },
    tags := some [{ name := "", description := some "d", xTraitTag := false }],
    paths := [("/p", { ops := [("get", opNoTags)], parameters := none })],
    xTagGroups := none }

def tC4 : TagInfo :=
  { name := "", description := some "d", xTraitTag := false, used := false,
    operations :=
      [{ op := opNoTags, pathName := "/p", httpVerb := "get", pathParameters := [] }] }

/-- Two declared tags and one explicit tag group covering them. -/
def exC5 : OpenAPISpec :=
  { info := { description := none },
    tags := some [{ name := "t1", description := none, xTraitTag := false },
                  { name := "t2", description := none, xTraitTag := false }],
    paths := [],
    xTagGroups := some [{ name := "G", tags := ["t1", "t2"] }] }

/-- One declared tag "a" plus one untagged operation (so the collected map
holds both a named and the anonymous tag), no tag groups. -/
def exC5b : OpenAPISpec :=
  { info := { description := none },
    tags := some [{ name := "a", description := none, xTraitTag := false }],
    paths := [("/p", { ops := [("get", opNoTags)], parameters := none })],
    xTagGroups := none }

def tA5 : TagInfo :=
  { name := "a", description := none, xTraitTag := false, operations := [],
    used := false }

def tAnon5 : TagInfo :=
  { name := "", description := none, xTraitTag := false,
    operations :=
      [{ op := opNoTags, pathName := "/p", httpVerb := "get", pathParameters := [] }],
    used := false }

def tW1 : TagInfo :=
  { name := "t1", description := none, xTraitTag := false, operations := [],
    used := false }

def mC6 : TagsInfoMap := [("t1", tW1)]

def gC6 : TagGroup := { name := "G", tags := ["missing", "t1"] }

/-- A trait-flagged tag targeted by an operation. -/
def exC7 : OpenAPISpec :=
  { info := { description := none },
    tags := some [{ name := "tr", description := none, xTraitTag := true }],
    paths := [("/p", { ops := [("get", opTagTr)], parameters := none })],
    xTagGroups := none }

def tC7 : TagInfo :=
  { name := "tr", description := none, xTraitTag := true, operations := [],
    used := false }

/-- The anonymous tag declared as a trait tag, plus one untagged operation. -/
def exC8 : OpenAPISpec :=
  { info := { description := none },
    tags := some [{ name := "", description := none, xTraitTag := true }],
    paths := [("/p", { ops := [("get", opNoTags)], parameters := none })],
    xTagGroups := none }

def tC9 : TagInfo :=
  { name := "z", description := none, xTraitTag := false, operations := [],
    used := false }

def mC9 : TagsInfoMap := [("z", tC9)]

def tC10 : TagInfo :=
  { name := "a", description := none, xTraitTag := false, operations := [],
    used := true }

/- --------------------------------------------------------------- claims -/

/-- Claim C1, as stated, is false at `exC1`: a top-level (parentless) `tag`
Group is produced with depth `GROUP_DEPTH + 1 = 1`, not 0 as the claim
requires for the top-level case. -/
theorem C1_counterexample :
    (buildStructure extract0 exC1).map nodeShape = [("tag", "a", 1)] ∧ (1 : Nat) ≠ 0 := by
  constructor
  · simp [buildStructure, buildStructureFull, exC1, extract0, getTagsWithOperations,
      addPaths, seedTags, seedTagInfo, addMarkdownItems, mapHeadingsDeep,
      getTagsItems, Dict.keys, Dict.set, Dict.get, collectTags, buildTagItems,
      tagChunk, withUsed, getOperationsItems, GROUP_DEPTH, nodeShape, nodeKindStr,
      nodeName, nodeDepth]
  · decide

/-- Claim C1 (amended): every `tag`-kind Group produced by `buildStructure`
has depth `GROUP_DEPTH + 1 = 1` — one greater than the depth `GROUP_DEPTH = 0`
of the explicit `group`-kind Group containing it when one exists, but also 1
(not 0) when the tag Group is top-level. -/
theorem C1_amended (extract : String → List Heading) (spec : OpenAPISpec) :
    depthKindOkList (buildStructure extract spec) = true := by
  rw [buildStructure_decomposition, depthKindOkList_append]
  unfold addMarkdownItems
  simp [depthKindOkList_mapHeadingsDeep, depthKindOkList_tagSection]

/-- Claim C2, as stated, is false at `exC2`: the operation of the anonymous
tag is hoisted to the top level but keeps depth `GROUP_DEPTH + 2 = 2` — the
depth it would have had below the (absent) tag Group — not the depth
`GROUP_DEPTH + 1 = 1` that items of the would-be parent's child sequence
carry. -/
theorem C2_counterexample :
    (buildStructure extract0 exC2).map nodeShape = [("operation", "get", 2)]
      ∧ (2 : Nat) ≠ GROUP_DEPTH + 1 := by
  constructor
  · simp [buildStructure, buildStructureFull, exC2, extract0, opNoTags,
      getTagsWithOperations, addPaths, addPathOperations, addOperationTags,
      addOperationToTag, seedTags, effectiveTags, extendOperation, freshTagInfo,
      isOperationName, addMarkdownItems, mapHeadingsDeep, getTagsItems, Dict.keys,
      Dict.set, Dict.get, collectTags, buildTagItems, tagChunk, withUsed,
      getOperationsItems, GROUP_DEPTH, nodeShape, nodeKindStr, nodeName, nodeDepth]
  · decide

/-- Claim C2 (amended): every Operation node `buildStructure` produces has
depth `GROUP_DEPTH + 2 = 2`; an Operation placed directly inside a `tag`-kind
Group sits at that Group's depth + 1, and a hoisted anonymous-tag Operation
keeps the same depth `GROUP_DEPTH + 2` — the would-be tag Group's depth + 1,
one more than the parent's child depth. -/
theorem C2_amended (extract : String → List Heading) (spec : OpenAPISpec) :
    opsDepthOkList (buildStructure extract spec) = true := by
  rw [buildStructure_decomposition, opsDepthOkList_append]
  unfold addMarkdownItems
  simp [opsDepthOkList_mapHeadingsDeep, opsDepthOkList_tagSection]

/-- Claim C3, as stated, is false at `exC3`: the collector iterates the verbs
of a path item in the path item's own declaration order (here post before
get), not in the fixed enumerated order get, put, post, ... that the claim
describes. -/
theorem C3_counterexample :
    (Dict.get (getTagsWithOperations exC3) "t").map (fun t => opIds t.operations)
        = some [("/p", "post"), ("/p", "get")]
      ∧ opIds (claimedOpsForTag exC3 "t") = [("/p", "get"), ("/p", "post")]
      ∧ ([("/p", "post"), ("/p", "get")] : List (String × String))
          ≠ [("/p", "get"), ("/p", "post")] := by
  refine ⟨by decide, by decide, by decide⟩

/-- Claim C3 (amended): for every non-trait tag entry of the collected map,
its operations array is exactly the (path, verb) discovery sequence — paths
iterated in the path map's declaration order, and within each path the path
item's own keys in their declaration order, filtered through the fixed
enumerated operation-name set (not reordered by it). -/
theorem C3_amended (spec : OpenAPISpec) (n : String) (t : TagInfo)
    (h : Dict.get (getTagsWithOperations spec) n = some t)
    (ht : t.xTraitTag = false) : t.operations = opsForTag spec n := by
  rw [get_getTagsWithOperations] at h
  cases hs : Dict.get (seedTags (spec.tags.getD []) []) n with
  | some t0 =>
    rw [hs] at h
    simp only [collectorGetO] at h
    have hops0 : t0.operations = [] := seed_operations _ _ _ hs
    cases h
    have ht0 : t0.xTraitTag = false := ht
    rw [ht0] at ht ⊢
    simp [hops0, opsForTag]
  | none =>
    rw [hs] at h
    simp only [collectorGetO] at h
    by_cases hm : mentions n (specOpsList spec.paths) = true
    · rw [if_pos hm] at h
      cases h
      simp [opsForTag]
    · rw [if_neg hm] at h
      cases h

/-- Witness for C3 (amended) at `exC3`. -/
theorem C3_amended_witness :
    Dict.get (getTagsWithOperations exC3) "t" = some tC3
      ∧ tC3.xTraitTag = false
      ∧ tC3.operations = opsForTag exC3 "t" :=
  have h : Dict.get (getTagsWithOperations exC3) "t" = some tC3 := by decide
  ⟨h, rfl, C3_amended exC3 "t" tC3 h rfl⟩

/-- Claim C4, as stated, is false at `exC4`: when the anonymous tag is
expanded, the narrative Group built from its description gets depth 1 (heading
depth always restarts at 1), not the would-be Group's depth + 1 = 2 which the
hoisted Operation does get. -/
theorem C4_counterexample :
    (buildStructure extract1 exC4).map nodeShape
        = [("section", "h", 1), ("operation", "get", 2)] ∧ (1 : Nat) ≠ 2 := by
  constructor
  · simp [buildStructure, buildStructureFull, exC4, extract1, opNoTags,
      getTagsWithOperations, addPaths, addPathOperations, addOperationTags,
      addOperationToTag, seedTags, seedTagInfo, effectiveTags, extendOperation,
      freshTagInfo, isOperationName, addMarkdownItems, mapHeadingsDeep,
      getTagsItems, Dict.keys, Dict.set, Dict.get, collectTags, buildTagItems,
      tagChunk, withUsed, getOperationsItems, GROUP_DEPTH, nodeShape, nodeKindStr,
      nodeName, nodeDepth]
  · decide

/-- Claim C4 (amended): expanding the anonymous tag creates no `tag` Group and
splices the narrative Groups from the tag's description followed by its
Operations in place; the Operations get the would-be Group's depth + 1
(`GROUP_DEPTH + 2 = 2`), but the narrative Groups get depth 1 — the heading
depth restarts at 1 and does not depend on the would-be Group. -/
theorem C4_amended (extract : String → List Heading) (t : TagInfo) (h : t.name = "") :
    (getTagsItems extract [("", t)] none).1
        = addMarkdownItems extract (t.description.getD "")
            ++ getOperationsItems t (GROUP_DEPTH + 2)
      ∧ (∀ x ∈ addMarkdownItems extract (t.description.getD ""),
          nodeDepth x = 1 ∧ nodeKindStr x = "section")
      ∧ (∀ x ∈ getOperationsItems t (GROUP_DEPTH + 2), nodeDepth x = GROUP_DEPTH + 2) := by
  refine ⟨?_, ?_, ?_⟩
  · rw [getTagsItems_items_all]
    simp only [Dict.keys, List.map_cons, List.map_nil, itemsFor]
    simp [Dict.get, tagChunk, withUsed, h, getOperationsItems, GROUP_DEPTH]
  · intro x hx
    unfold addMarkdownItems at hx
    exact mapHeadingsDeep_top _ 1 x hx
  · intro x hx
    exact getOperationsItems_depth t _ x hx

/-- Witness for C4 (amended) at `extract1` and `tC4`. -/
theorem C4_amended_witness :
    ((getTagsItems extract1 [("", tC4)] none).1
        = addMarkdownItems extract1 (tC4.description.getD "")
            ++ getOperationsItems tC4 (GROUP_DEPTH + 2))
      ∧ (∀ x ∈ addMarkdownItems extract1 (tC4.description.getD ""),
          nodeDepth x = 1 ∧ nodeKindStr x = "section")
      ∧ (∀ x ∈ getOperationsItems tC4 (GROUP_DEPTH + 2),
          nodeDepth x = GROUP_DEPTH + 2) :=
  C4_amended extract1 tC4 rfl

theorem tagChunk_empty_name (extract : String → List Heading) (u : TagInfo)
    (h : u.name = "") :
    tagChunk extract u = addMarkdownItems extract (u.description.getD "")
      ++ getOperationsItems u (GROUP_DEPTH + 1 + 1) := by
  unfold tagChunk
  simp [h]

theorem tagChunk_named (extract : String → List Heading) (u : TagInfo)
    (h : u.name ≠ "") :
    tagChunk extract u = [ContentItem.group GroupKind.tag u.name u.description
      (GROUP_DEPTH + 1) (addMarkdownItems extract (u.description.getD "")
        ++ getOperationsItems u (GROUP_DEPTH + 1 + 1))] := by
  unfold tagChunk
  simp [h]

/-- Claim C5, as stated, is false at `exC2`: with no `x-tagGroups`, the
top-level tag section is not "the tag Groups for every tag in collected-map
order" — the collected map holds the single key "" (the anonymous tag), yet
the section contains a spliced Operation node and no tag Group at all. -/
theorem C5_counterexample :
    (tagSection extract0 exC2).map nodeShape = [("operation", "get", 2)]
      ∧ (Dict.keys (getTagsWithOperations exC2)).map
          (fun k => ("tag", k, GROUP_DEPTH + 1)) = [("tag", "", 1)]
      ∧ ([("operation", "get", 2)] : List (String × String × Nat))
          ≠ [("tag", "", 1)] := by
  refine ⟨?_, by decide, by decide⟩
  simp [tagSection, exC2, extract0, opNoTags, getTagsWithOperations, addPaths,
    addPathOperations, addOperationTags, addOperationToTag, seedTags,
    effectiveTags, extendOperation, freshTagInfo, isOperationName,
    addMarkdownItems, mapHeadingsDeep, getTagsItems, Dict.keys, Dict.set,
    Dict.get, collectTags, buildTagItems, tagChunk, withUsed,
    getOperationsItems, GROUP_DEPTH, nodeShape, nodeKindStr, nodeName, nodeDepth]

/-- Claim C5 (amended): `buildStructure` is the narrative Groups followed by
exactly one of the two tag sections, never both at the same level: one
`group`-kind Group (depth `GROUP_DEPTH`) per `x-tagGroups` entry in definition
order when that list is supplied and non-empty; otherwise the items of every
collected tag in map order, where each named tag contributes exactly one
`tag`-kind Group (depth `GROUP_DEPTH + 1`) and the anonymous tag contributes
its spliced narrative items and Operations instead of a Group. -/
theorem C5_amended (extract : String → List Heading) (spec : OpenAPISpec) :
    buildStructure extract spec
        = addMarkdownItems extract (spec.info.description.getD "")
            ++ tagSection extract spec
      ∧ (∀ gs, spec.xTagGroups = some gs → 0 < gs.length →
          (tagSection extract spec).map nodeShape
            = gs.map (fun g => ("group", g.name, GROUP_DEPTH)))
      ∧ ((spec.xTagGroups = none ∨ spec.xTagGroups = some []) →
          tagSection extract spec
            = itemsFor extract (getTagsWithOperations spec)
                (Dict.keys (getTagsWithOperations spec)))
      ∧ (∀ k t, Dict.get (getTagsWithOperations spec) k = some t → k ≠ "" →
          (tagChunk extract (withUsed t)).map nodeShape
            = [("tag", k, GROUP_DEPTH + 1)])
      ∧ (∀ k t, Dict.get (getTagsWithOperations spec) k = some t → k = "" →
          tagChunk extract (withUsed t)
            = addMarkdownItems extract (t.description.getD "")
                ++ getOperationsItems t (GROUP_DEPTH + 2)) := by
  refine ⟨buildStructure_decomposition extract spec, ?_, ?_, ?_, ?_⟩
  · intro gs hgs hlen
    unfold tagSection
    rw [hgs]
    simp only [if_pos hlen]
    exact getTagGroupsItems_shape extract gs _
  · intro hcase
    have hts : tagSection extract spec
        = (getTagsItems extract (getTagsWithOperations spec) none).1 := by
      unfold tagSection
      rcases hcase with h' | h' <;> simp [h']
    rw [hts, getTagsItems_items_all]
  · intro k t ht hk
    have hname : t.name = k := getTagsWithOperations_name spec k t ht
    have hn' : (withUsed t).name ≠ "" := by
      show t.name ≠ ""
      rw [hname]
      exact hk
    rw [tagChunk_named extract (withUsed t) hn']
    simp [nodeShape, nodeKindStr, nodeName, nodeDepth, withUsed, hname]
  · intro k t ht hk
    have hname : (withUsed t).name = "" := by
      show t.name = ""
      rw [getTagsWithOperations_name spec k t ht]
      exact hk
    rw [tagChunk_empty_name extract (withUsed t) hname]
    rfl

/-- Witness for C5 (amended): the named tag "a" and the anonymous tag of
`exC5b` exercise the fallback branch's two chunk shapes, and `exC5` exercises
the explicit-group branch. -/
theorem C5_amended_witness :
    (buildStructure extract0 exC5b
        = addMarkdownItems extract0 (exC5b.info.description.getD "")
            ++ tagSection extract0 exC5b)
      ∧ (tagSection extract0 exC5).map nodeShape
          = ([⟨"G", ["t1", "t2"]⟩] : List TagGroup).map
              (fun g => ("group", g.name, GROUP_DEPTH))
      ∧ tagSection extract0 exC5b
          = itemsFor extract0 (getTagsWithOperations exC5b)
              (Dict.keys (getTagsWithOperations exC5b))
      ∧ (tagChunk extract0 (withUsed tA5)).map nodeShape
          = [("tag", "a", GROUP_DEPTH + 1)]
      ∧ tagChunk extract0 (withUsed tAnon5)
          = addMarkdownItems extract0 (tAnon5.description.getD "")
              ++ getOperationsItems tAnon5 (GROUP_DEPTH + 2) :=
  have hb := C5_amended extract0 exC5b
  have hg := C5_amended extract0 exC5
  ⟨hb.1,
    hg.2.1 [⟨"G", ["t1", "t2"]⟩] rfl (by decide),
    hb.2.2.1 (Or.inl rfl),
    hb.2.2.2.1 "a" tA5 (by decide) (by decide),
    hb.2.2.2.2 "" tAnon5 (by decide) rfl⟩

/-- Claim C6: for an explicit group, one warning is emitted per tag name
missing from the map (in order), the missing names contribute no items, every
existing referenced tag is marked `used = true` in the map, and the items are
built from exactly the existing tags in the group's order (construction never
aborts: the equations hold for every input). -/
theorem C6_group_warnings (extract : String → List Heading) (m : TagsInfoMap)
    (g : TagGroup) :
    (getTagsItems extract m (some g)).2.2 = missingWarnings m g.name g.tags
      ∧ (∀ n ∈ g.tags, Dict.get m n = none →
          warnMsg n g.name ∈ (getTagsItems extract m (some g)).2.2)
      ∧ (∀ n t, n ∈ g.tags → Dict.get m n = some t →
          Dict.get (getTagsItems extract m (some g)).2.1 n = some (withUsed t))
      ∧ (getTagsItems extract m (some g)).1 = itemsFor extract m g.tags := by
  refine ⟨getTagsItems_warnings_group extract m g, ?_, ?_,
    getTagsItems_items_group extract m g⟩
  · intro n hn hget
    rw [getTagsItems_warnings_group]
    exact mem_missingWarnings m g.name n hget g.tags hn
  · intro n t hn hget
    rw [getTagsItems_map_group]
    simp [hget, hasTag_of_mem n g.tags hn]

/-- Witness for C6 at `mC6` / `gC6` (one missing and one existing tag). -/
theorem C6_group_warnings_witness :
    ((getTagsItems extract0 mC6 (some gC6)).2.2
        = missingWarnings mC6 gC6.name gC6.tags)
      ∧ warnMsg "missing" gC6.name ∈ (getTagsItems extract0 mC6 (some gC6)).2.2
      ∧ Dict.get (getTagsItems extract0 mC6 (some gC6)).2.1 "t1" = some (withUsed tW1)
      ∧ (getTagsItems extract0 mC6 (some gC6)).1 = itemsFor extract0 mC6 gC6.tags :=
  have hc := C6_group_warnings extract0 mC6 gC6
  ⟨hc.1, hc.2.1 "missing" (by decide) (by decide),
    hc.2.2.1 "t1" tW1 (by decide) (by decide), hc.2.2.2⟩

/-- Claim C7: a trait-flagged entry of the collected map never accumulates
operations — its operations array is empty whatever the paths declare. -/
theorem C7_trait_no_operations (spec : OpenAPISpec) (n : String) (t : TagInfo)
    (h : Dict.get (getTagsWithOperations spec) n = some t)
    (ht : t.xTraitTag = true) : t.operations = [] := by
  rw [get_getTagsWithOperations] at h
  cases hs : Dict.get (seedTags (spec.tags.getD []) []) n with
  | some t0 =>
    rw [hs] at h
    simp only [collectorGetO] at h
    cases h
    have ht0 : t0.xTraitTag = true := ht
    simp [ht0, seed_operations _ _ _ hs]
  | none =>
    rw [hs] at h
    simp only [collectorGetO] at h
    by_cases hm : mentions n (specOpsList spec.paths) = true
    · rw [if_pos hm] at h
      cases h
      simp [freshTagInfo] at ht
    · rw [if_neg hm] at h
      cases h

/-- Witness for C7 at `exC7`: an operation declares the trait tag "tr", yet
its entry keeps an empty operations array. -/
theorem C7_trait_no_operations_witness :
    Dict.get (getTagsWithOperations exC7) "tr" = some tC7 ∧ tC7.operations = [] :=
  have h : Dict.get (getTagsWithOperations exC7) "tr" = some tC7 := by decide
  ⟨h, C7_trait_no_operations exC7 "tr" tC7 h rfl⟩

/-- Claim C8, as stated, is false at `exC8`: when the empty-string tag is
declared with `x-traitTag`, an untagged operation is NOT filed under the
anonymous tag (its operations array stays empty) and no Operation node
appears in the built structure at all. -/
theorem C8_counterexample :
    (Dict.get (getTagsWithOperations exC8) "").map TagInfo.operations = some []
      ∧ buildStructure extract0 exC8 = [] := by
  constructor
  · decide
  · simp [buildStructure, buildStructureFull, exC8, extract0, opNoTags,
      getTagsWithOperations, addPaths, addPathOperations, addOperationTags,
      addOperationToTag, seedTags, seedTagInfo, effectiveTags, extendOperation,
      freshTagInfo, isOperationName, addMarkdownItems, mapHeadingsDeep,
      getTagsItems, Dict.keys, Dict.set, Dict.get, collectTags, buildTagItems,
      tagChunk, withUsed, getOperationsItems]

/-- Claim C8 (amended): provided the empty-string tag is not declared as a
trait tag, every operation whose tags array is missing or empty is filed
under the anonymous tag, and expanding all tags places it as a top-level
Operation node (depth `GROUP_DEPTH + 2`) with no intervening Group. -/
theorem C8_anonymous_filed (spec : OpenAPISpec) (pathName : String)
    (path : OpenAPIPath) (verb : String) (op : OpenAPIOperation)
    (hp : (pathName, path) ∈ spec.paths) (ho : (verb, op) ∈ path.ops)
    (hv : isOperationName verb = true)
    (htags : op.tags = none ∨ op.tags = some [])
    (htrait : ∀ dt ∈ spec.tags.getD [], dt.name = "" → dt.xTraitTag = false) :
    ∃ t, Dict.get (getTagsWithOperations spec) "" = some t
      ∧ extendOperation op pathName verb path.parameters ∈ t.operations
      ∧ ∀ extract : String → List Heading,
          ContentItem.operation (extendOperation op pathName verb path.parameters)
              (GROUP_DEPTH + 2)
            ∈ (getTagsItems extract (getTagsWithOperations spec) none).1 := by
  have heff : "" ∈ effectiveTags op := by
    rcases htags with h' | h' <;> simp [effectiveTags, h']
  have hmem := mem_specOpsList pathName path verb op ho hv spec.paths hp
  have hops : extendOperation op pathName verb path.parameters
      ∈ opsIn "" (specOpsList spec.paths) :=
    mem_opsIn "" _ (effectiveTags op) (specOpsList spec.paths) hmem heff
  have hfinal : ∃ t, Dict.get (getTagsWithOperations spec) "" = some t
      ∧ extendOperation op pathName verb path.parameters ∈ t.operations := by
    rw [get_getTagsWithOperations]
    cases hs : Dict.get (seedTags (spec.tags.getD []) []) "" with
    | some t0 =>
      obtain ⟨dt, hdtmem, hdtname, ht0⟩ := seed_provenance _ _ _ hs
      have htr : t0.xTraitTag = false := by
        rw [ht0]
        exact htrait dt hdtmem hdtname
      refine ⟨{ t0 with operations := t0.operations
          ++ (if t0.xTraitTag then [] else opsIn "" (specOpsList spec.paths)) },
        rfl, ?_⟩
      show extendOperation op pathName verb path.parameters ∈ t0.operations
        ++ (if t0.xTraitTag then [] else opsIn "" (specOpsList spec.paths))
      rw [htr]
      simp only [Bool.false_eq_true, if_false]
      exact List.mem_append_right _ hops
    | none =>
      have hm : mentions "" (specOpsList spec.paths) = true :=
        mentions_of_mem_opsIn "" _ _ hops
      exact ⟨{ freshTagInfo "" with operations := opsIn "" (specOpsList spec.paths) },
        by simp [collectorGetO, hm], hops⟩
  obtain ⟨t, hget, hmem2⟩ := hfinal
  refine ⟨t, hget, hmem2, ?_⟩
  intro extract
  rw [getTagsItems_items_all]
  have hname : (withUsed t).name = "" := getTagsWithOperations_name spec "" t hget
  have hx : ContentItem.operation (extendOperation op pathName verb path.parameters)
      (GROUP_DEPTH + 2) ∈ tagChunk extract (withUsed t) := by
    rw [tagChunk_empty_name extract (withUsed t) hname]
    refine List.mem_append_right _ ?_
    exact mem_getOperationsItems (withUsed t) (GROUP_DEPTH + 1 + 1) _ hmem2
  exact mem_itemsFor extract _ "" t _ hget hx _ (Dict.mem_keys_of_get _ _ _ hget)

/-- Witness for C8 (amended) at `exC2` (one untagged operation, no declared
tags). -/
theorem C8_anonymous_filed_witness :
    ∃ t, Dict.get (getTagsWithOperations exC2) "" = some t
      ∧ extendOperation opNoTags "/p" "get" none ∈ t.operations
      ∧ ∀ extract : String → List Heading,
          ContentItem.operation (extendOperation opNoTags "/p" "get" none)
              (GROUP_DEPTH + 2)
            ∈ (getTagsItems extract (getTagsWithOperations exC2) none).1 :=
  C8_anonymous_filed exC2 "/p" { ops := [("get", opNoTags)], parameters := none }
    "get" opNoTags (by decide) (by decide) (by decide) (Or.inl rfl)
    (by intro dt hdt; simp [exC2] at hdt)

/-- Claim C9: a named tag entry with no operations and no description still
yields a `tag` Group with an empty child list among the items (it is not
pruned), and expanding the operations of any tag with an empty operations
array returns the empty list. -/
theorem C9_empty_tag_group (extract : String → List Heading) (hext : extract "" = [])
    (m : TagsInfoMap) (n : String) (t : TagInfo) (h : Dict.get m n = some t)
    (hname : t.name ≠ "") (hops : t.operations = []) (hdesc : t.description = none) :
    ContentItem.group GroupKind.tag t.name none (GROUP_DEPTH + 1) []
        ∈ (getTagsItems extract m none).1
      ∧ ∀ (u : TagInfo) (d : Nat), u.operations = [] → getOperationsItems u d = [] := by
  constructor
  · rw [getTagsItems_items_all]
    have hn' : (withUsed t).name ≠ "" := hname
    have hchunk : tagChunk extract (withUsed t)
        = [ContentItem.group GroupKind.tag t.name none (GROUP_DEPTH + 1) []] := by
      rw [tagChunk_named extract (withUsed t) hn']
      simp [withUsed, hdesc, addMarkdownItems, hext, mapHeadingsDeep,
        getOperationsItems, hops]
    have hx : ContentItem.group GroupKind.tag t.name none (GROUP_DEPTH + 1) []
        ∈ tagChunk extract (withUsed t) := by
      rw [hchunk]
      exact List.mem_singleton_self _
    exact mem_itemsFor extract m n t _ h hx _ (Dict.mem_keys_of_get m n t h)
  · intro u d hu
    unfold getOperationsItems
    simp [hu]

/-- Witness for C9 at `mC9` (tag "z" with no operations, no description). -/
theorem C9_empty_tag_group_witness :
    (ContentItem.group GroupKind.tag tC9.name none (GROUP_DEPTH + 1) []
        ∈ (getTagsItems extract0 mC9 none).1)
      ∧ ∀ (u : TagInfo) (d : Nat), u.operations = [] → getOperationsItems u d = [] :=
  C9_empty_tag_group extract0 rfl mC9 "z" tC9 rfl (by decide) rfl rfl

/-- Claim C10: with no `x-tagGroups`, running `buildStructure` marks every
entry of the collected tags map `used = true`. -/
theorem C10_all_marked_used (extract : String → List Heading) (spec : OpenAPISpec)
    (hx : spec.xTagGroups = none) (k : String) (t : TagInfo)
    (h : Dict.get (buildStructureFull extract spec).2.1 k = some t) : t.used = true := by
  simp only [buildStructureFull, hx] at h
  rw [getTagsItems_map_all] at h
  cases hg : Dict.get (getTagsWithOperations spec) k with
  | none => rw [hg] at h; simp at h
  | some t0 =>
    rw [hg] at h
    have hk : hasTag k (Dict.keys (getTagsWithOperations spec)) = true :=
      hasTag_of_mem k _ (Dict.mem_keys_of_get _ _ _ hg)
    simp only [hk, if_true] at h
    cases h
    rfl

/-- Witness for C10 at `exC1`: the only tag "a" ends up `used = true`. -/
theorem C10_all_marked_used_witness :
    Dict.get (buildStructureFull extract0 exC1).2.1 "a" = some tC10
      ∧ tC10.used = true :=
  have h : Dict.get (buildStructureFull extract0 exC1).2.1 "a" = some tC10 := by decide
  ⟨h, C10_all_marked_used extract0 exC1 rfl "a" tC10 h⟩
